import Mathlib

/-
Verification of the CoreLab geological block-model engine
(backend/corelab/engine.py and the grid construction in backend/main.py).

The Python code is shallowly embedded in Lean: pure functions become Lean
functions over exact rationals; the trigonometric primitives (math.radians,
math.sin, math.cos) and the square root used by the kriging solver are taken
as function parameters, since the theorems below do not depend on their
values; numpy float64 arithmetic is modelled by exact arithmetic on the
rationals.
-/

namespace CoreLab

/-! ## 1. Trajectory builder (CoreLabEngine.compute_trajectory) -/

/-- One directional survey station row: columns AT (depth), AZ (azimuth in
degrees), DIP (dip in degrees). -/
structure Station (α : Type) where
  AT : α
  AZ : α
  DIP : α

/-- Loop body of compute_trajectory: starting from the current position
(x, y, z) and the previous depth, process the remaining survey rows.
Mirrors engine.py lines 65-85: advance = depth - last_depth,
dx = advance*sin(az)*cos(dip), dy = advance*cos(az)*cos(dip),
dz = advance*sin(dip), x += dx, y += dy, z -= abs(dz). The conversion
math.radians and the trigonometric functions are abstract parameters. -/
def trajLoop {α : Type} [LinearOrderedField α] (rad sin cos : α → α)
    (x y z last_depth : α) : List (Station α) → List (α × α × α × α)
  | [] => []
  | row :: rest =>
      let depth : α := row.AT
      let dip : α := rad row.DIP
      let azm : α := rad row.AZ
      let advance : α := depth - last_depth
      let dx : α := advance * sin azm * cos dip
      let dy : α := advance * cos azm * cos dip
      let dz : α := advance * sin dip
      let x1 : α := x + dx
      let y1 : α := y + dy
      let z1 : α := z - |dz|
      (x1, y1, z1, depth) :: trajLoop rad sin cos x1 y1 z1 depth rest

/-- Embedding of CoreLabEngine.compute_trajectory (engine.py lines 29-87):
the collar point at depth 0 followed by one point per survey station. -/
def compute_trajectory {α : Type} [LinearOrderedField α] (rad sin cos : α → α)
    (collar : α × α × α) (survey : List (Station α)) : List (α × α × α × α) :=
  (collar.1, collar.2.1, collar.2.2, 0) :: trajLoop rad sin cos collar.1 collar.2.1 collar.2.2 0 survey

/-- The position update performed for a single survey station, as a function
of the previous trajectory point (whose fourth component is the previous
depth) and the station row. -/
def trajStep {α : Type} [LinearOrderedField α] (rad sin cos : α → α)
    (p : α × α × α × α) (s : Station α) : α × α × α × α :=
  (p.1 + (s.AT - p.2.2.2) * sin (rad s.AZ) * cos (rad s.DIP),
   p.2.1 + (s.AT - p.2.2.2) * cos (rad s.AZ) * cos (rad s.DIP),
   p.2.2.1 - |(s.AT - p.2.2.2) * sin (rad s.DIP)|,
   s.AT)

/-! ## 2. Data records over exact rationals -/

/-- A point of a computed drillhole trajectory, as stored in the drillhole
model records built by build_drillhole_model. -/
structure TrajPoint where
  x : ℚ
  y : ℚ
  z : ℚ
  depth : ℚ
deriving DecidableEq

/-- One assay interval row: columns ID, FROM, TO and the numeric variable
(missing values are modelled by none, matching pandas NaN). -/
structure AssayRow where
  ID : String
  FROM : ℚ
  TO : ℚ
  value : Option ℚ
deriving DecidableEq

/-- A drillhole record as consumed by build_composites: its id and its
computed trajectory. -/
structure Hole where
  hole_id : String
  trajectory : List TrajPoint
deriving DecidableEq

/-- A composite record as produced by build_composites. -/
structure Composite where
  hole_id : String
  fromD : ℚ
  toD : ℚ
  value : Option ℚ
  x : ℚ
  y : ℚ
  z : ℚ
  mid_depth : ℚ
deriving DecidableEq

/-! ## 3. Composite engine (CoreLabEngine.build_composites) -/

/-- Python min(list, key=f): the first element attaining the minimal key
(python keeps the current best and replaces it only on a strictly smaller
key). Returns none on the empty list, where python would raise. -/
def pyMinBy {α : Type} (f : α → ℚ) : List α → Option α
  | [] => none
  | a :: rest => some (rest.foldl (fun best c => if f c < f best then c else best) a)

/-- The final depth of a trajectory (python traj[-1]["depth"]; 0 for an empty
trajectory, where python would raise — compute_trajectory never returns an
empty trajectory). -/
def lastDepth (traj : List TrajPoint) : ℚ :=
  ((traj.getLast?).map (fun p => p.depth)).getD 0

/-- The accumulation loop over the intervals intersecting one composite
window (engine.py lines 190-206): missing values are skipped, values above
top_cut are clamped, and each remaining interval adds value*overlap to the
running total and overlap to the running weight when the overlap is
positive. -/
def windowTotals (top_cut : Option ℚ) (comp_start comp_end : ℚ)
    (intervals : List AssayRow) : ℚ × ℚ :=
  intervals.foldl (fun acc r =>
    match r.value with
    | none => acc
    | some v0 =>
        let v : ℚ := match top_cut with
          | some tc => if v0 > tc then tc else v0
          | none => v0
        let overlap : ℚ := min r.TO comp_end - max r.FROM comp_start
        if 0 < overlap then (acc.1 + v * overlap, acc.2 + overlap) else acc) (0, 0)

/-- The window walk of build_composites for one hole (engine.py lines
177-228): windows [s, s+L) are walked from the given start while
s < max_depth; windows with fewer than min_samples intersecting intervals
produce no record; otherwise one record is emitted whose value is
total/weight, or null when the weight is 0.  The guard 0 < length reflects
the precondition L > 0 (python would loop forever otherwise). -/
def buildCompLoop (hid : String) (traj : List TrajPoint) (rows : List AssayRow)
    (length : ℚ) (top_cut : Option ℚ) (min_samples : ℕ) (max_depth : ℚ)
    (comp_start : ℚ) : List Composite :=
  if h : 0 < length ∧ comp_start < max_depth then
    let comp_end := comp_start + length
    let intervals := rows.filter (fun r => decide (r.FROM < comp_end ∧ r.TO > comp_start))
    let rest := buildCompLoop hid traj rows length top_cut min_samples max_depth comp_end
    if intervals.length < min_samples then rest
    else
      let tw := windowTotals top_cut comp_start comp_end intervals
      let value : Option ℚ := if 0 < tw.2 then some (tw.1 / tw.2) else none
      let mid_depth := (comp_start + comp_end) / 2
      let xyz := (pyMinBy (fun p => |p.depth - mid_depth|) traj).getD ⟨0,0,0,0⟩
      { hole_id := hid, fromD := comp_start, toD := comp_end, value := value,
        x := xyz.x, y := xyz.y, z := xyz.z, mid_depth := mid_depth } :: rest
  else []
termination_by (⌈(max_depth - comp_start) / length⌉).toNat
decreasing_by
  obtain ⟨hL, hlt⟩ := h
  have hq : 0 < (max_depth - comp_start) / length := div_pos (by linarith) hL
  have h1 : (max_depth - (comp_start + length)) / length
      = (max_depth - comp_start) / length - 1 := by
    field_simp
    ring
  have h2 : 0 < ⌈(max_depth - comp_start) / length⌉ := Int.ceil_pos.2 hq
  rw [h1, Int.ceil_sub_one]
  omega

/-- Embedding of CoreLabEngine.build_composites (engine.py lines 141-230).
The per-hole assay rows are the rows with matching ID, sorted by FROM
(pandas sort_values). -/
def build_composites (drillholes : List Hole) (assay : List AssayRow)
    (length : ℚ) (top_cut : Option ℚ) (min_samples : ℕ) : List Composite :=
  drillholes.flatMap (fun hole =>
    let assay_hole := (assay.filter (fun r => r.ID == hole.hole_id)).mergeSort
      (fun a b => decide (a.FROM ≤ b.FROM))
    buildCompLoop hole.hole_id hole.trajectory assay_hole length top_cut
      min_samples (lastDepth hole.trajectory) 0)

/-- The sequence of composite window starts: windows [s, s+L) walked from a
given start while s < max_depth (the quantification domain of claim C3). -/
def specWindows (length max_depth : ℚ) (s : ℚ) : List ℚ :=
  if h : 0 < length ∧ s < max_depth then s :: specWindows length max_depth (s + length)
  else []
termination_by (⌈(max_depth - s) / length⌉).toNat
decreasing_by
  obtain ⟨hL, hlt⟩ := h
  have hq : 0 < (max_depth - s) / length := div_pos (by linarith) hL
  have h1 : (max_depth - (s + length)) / length = (max_depth - s) / length - 1 := by
    field_simp
    ring
  have h2 : 0 < ⌈(max_depth - s) / length⌉ := Int.ceil_pos.2 hq
  rw [h1, Int.ceil_sub_one]
  omega

/-- Modelled from the wording of the spec (section 4.2): the (from, to, value)
triple emitted for the window [s, s+L), if any.  No record when fewer than
min_samples intervals satisfy FROM < s+L and TO > s; otherwise the value is
the overlap-weighted average of the non-missing top-cut-clamped values, null
when the total overlap weight of the non-missing values is 0. -/
def specWindowRecord (rows : List AssayRow) (length : ℚ) (top_cut : Option ℚ)
    (min_samples : ℕ) (s : ℚ) : Option (ℚ × ℚ × Option ℚ) :=
  let sel := rows.filter (fun r => decide (r.FROM < s + length ∧ r.TO > s))
  if sel.length < min_samples then none
  else
    let contrib := sel.filterMap (fun r => r.value.map (fun v0 =>
      ((match top_cut with
        | some tc => if v0 > tc then tc else v0
        | none => v0),
       min r.TO (s + length) - max r.FROM s)))
    let w := (contrib.map (fun p => p.2)).sum
    some (s, s + length,
      if w = 0 then none else some ((contrib.map (fun p => p.1 * p.2)).sum / w))

/-- Concrete example hole for the C3 witness: a straight 10 m trajectory. -/
def exHoleC3 : Hole :=
  { hole_id := "H1", trajectory := [⟨0,0,100,0⟩, ⟨0,0,90,10⟩] }

/-- Concrete example assay table for the C3 witness: a single interval
[0,10] of value 2. -/
def exAssayC3 : List AssayRow :=
  [{ ID := "H1", FROM := 0, TO := 10, value := some 2 }]

/-! ## 4. Sample interpolation (CoreLabEngine.build_samples_from_assay) -/

/-- A sample record produced by build_samples_from_assay. -/
structure Sample where
  hole_id : String
  fromD : ℚ
  toD : ℚ
  mid_depth : ℚ
  value : ℚ
  x : ℚ
  y : ℚ
  z : ℚ
deriving DecidableEq

/-- The linear segment search of engine.py lines 492-504: the first
consecutive pair (p, q) of the depth-sorted trajectory with
p.depth <= mid <= q.depth (the python loop breaks at the first hit). -/
def findSeg (mid : ℚ) : List TrajPoint → Option (TrajPoint × TrajPoint)
  | p :: q :: rest =>
      if p.depth ≤ mid ∧ mid ≤ q.depth then some (p, q)
      else findSeg mid (q :: rest)
  | _ => none

/-- Conversion from the tuples returned by compute_trajectory to the
trajectory records stored by build_drillhole_model (engine.py lines
129-131). -/
def toTrajPoints (l : List (ℚ × ℚ × ℚ × ℚ)) : List TrajPoint :=
  l.map (fun p => ⟨p.1, p.2.1, p.2.2.1, p.2.2.2⟩)

/-- Embedding of CoreLabEngine.build_samples_from_assay (engine.py lines
444-522).  Where the found segment is degenerate (equal depths) python
raises ZeroDivisionError in t = (mid-d1)/(d2-d1); the Lean rendering uses
total field division, and claim C10 characterises exactly when that divisor
is zero. -/
def build_samples_from_assay (drillholes : List Hole) (assay : List AssayRow)
    (top_cut : Option ℚ) : List Sample :=
  drillholes.flatMap (fun hole =>
    let traj_sorted := hole.trajectory.mergeSort (fun a b => decide (a.depth ≤ b.depth))
    let ah := (assay.filter (fun r => r.ID == hole.hole_id)).mergeSort
      (fun a b => decide (a.FROM ≤ b.FROM))
    ah.filterMap (fun r =>
      match r.value with
      | none => none
      | some v0 =>
          let v : ℚ := match top_cut with
            | some tc => if v0 > tc then tc else v0
            | none => v0
          let mid := (r.FROM + r.TO) / 2
          let xyz : ℚ × ℚ × ℚ :=
            match findSeg mid traj_sorted with
            | some (p, q) =>
                let t := (mid - p.depth) / (q.depth - p.depth)
                (p.x + t * (q.x - p.x), p.y + t * (q.y - p.y), p.z + t * (q.z - p.z))
            | none =>
                match pyMinBy (fun p => |p.depth - mid|) traj_sorted with
                | some p => (p.x, p.y, p.z)
                | none => (0, 0, 0)
          some { hole_id := hole.hole_id, fromD := r.FROM, toD := r.TO,
                 mid_depth := mid, value := v,
                 x := xyz.1, y := xyz.2.1, z := xyz.2.2 }))

/-- Concrete strictly increasing trajectory for the C10 witness. -/
def exTrajC10 : List TrajPoint := [⟨0,0,100,0⟩, ⟨0,0,90,10⟩]

/-! ## 5. Kriging (CoreLabEngine.krige_blocks)

The numpy float64 arithmetic is modelled exactly over the rationals.  The
scipy KDTree radius query returns the indices of all points within the
search radius; for data sets up to the default leaf size (16 points) the
scipy tree keeps the points in insertion order, so the query result is
modelled as the in-radius points in insertion order.  Membership in the
ball is decided on squared distances, which is exactly equivalent to
comparing true Euclidean distances with the radius.  The square root used
when evaluating the variogram is an abstract parameter. -/

/-- A block of the block model (built in backend/main.py); value none is the
python None. -/
structure Block where
  x : ℚ
  y : ℚ
  z : ℚ
  size_x : ℚ
  size_y : ℚ
  size_z : ℚ
  value : Option ℚ
deriving DecidableEq

/-- Squared Euclidean distance between two of the indexed points
(x, y, z, value). -/
def sqDistPP (p q : ℚ × ℚ × ℚ × ℚ) : ℚ :=
  (p.1 - q.1) * (p.1 - q.1) + (p.2.1 - q.2.1) * (p.2.1 - q.2.1)
    + (p.2.2.1 - q.2.2.1) * (p.2.2.1 - q.2.2.1)

/-- Squared Euclidean distance between an indexed point and a block
center. -/
def sqDistPC (p : ℚ × ℚ × ℚ × ℚ) (c : ℚ × ℚ × ℚ) : ℚ :=
  (p.1 - c.1) * (p.1 - c.1) + (p.2.1 - c.2.1) * (p.2.1 - c.2.1)
    + (p.2.2.1 - c.2.2) * (p.2.2.1 - c.2.2)

/-- Local kriging parameters fixed in the code (engine.py lines 350-355). -/
def MAX_NEIGH : ℕ := 12

/-- Search radius in meters. -/
def SEARCH_RADIUS : ℚ := 100

/-- Variogram nugget. -/
def NUGGET : ℚ := 0.05

/-- Variogram sill. -/
def SILL : ℚ := 1

/-- Variogram range. -/
def RANGE : ℚ := 120

/-- The spherical variogram of engine.py lines 357-363 (note that at h = 0
it evaluates to the nugget). -/
def spherical (h : ℚ) : ℚ :=
  if h ≤ RANGE then
    NUGGET + SILL * (1.5 * (h / RANGE) - 0.5 * ((h / RANGE) * (h / RANGE) * (h / RANGE)))
  else NUGGET + SILL

/-- Dot product of two coefficient lists. -/
def dotQ (a b : List ℚ) : ℚ := (a.zipWith (fun x y => x * y) b).sum

/-- Exact Gaussian elimination on an augmented matrix (each row is the
coefficients followed by the right-hand side).  Models np.linalg.solve: on a
nonsingular square system this computes the unique exact solution (which any
direct solve computes), and it returns none exactly when the system is
singular, where numpy raises LinAlgError.  The fuel argument is the number
of rows and only drives structural recursion. -/
def gaussAux : ℕ → List (List ℚ) → Option (List ℚ)
  | _, [] => some []
  | 0, _ :: _ => none
  | Nat.succ fuel, rows =>
      match rows.find? (fun r => decide (r.headD 0 ≠ 0)) with
      | none => none
      | some p =>
          let ph := p.headD 0
          let rest := rows.erase p
          let reduced := rest.map (fun r =>
            (r.tail).zipWith (fun a b => a - (r.headD 0 / ph) * b) p.tail)
          match gaussAux fuel reduced with
          | none => none
          | some xs =>
              some ((p.tail.getLastD 0 - dotQ p.tail.dropLast xs) / ph :: xs)

/-- Solve the augmented square system, none on a singular matrix. -/
def gaussSolve (rows : List (List ℚ)) : Option (List ℚ) :=
  gaussAux rows.length rows

/-- Add the anti-singularity term 1e-6 to the diagonal
(P += np.eye(n+1) * 1e-6, engine.py line 416). -/
def addDiagEps (m : List (List ℚ)) : List (List ℚ) :=
  m.enum.map (fun ir =>
    ir.2.enum.map (fun ja => if ir.1 = ja.1 then ja.2 + 1/1000000 else ja.2))

/-- The kriging matrix of engine.py lines 389-416 for the selected
neighbors: pairwise variogram values, bordered by the unbiasedness row and
column (ones, with 0 in the corner), then the diagonal perturbation. -/
def krigeP (sqrt : ℚ → ℚ) (sel : List (ℚ × ℚ × ℚ × ℚ)) : List (List ℚ) :=
  addDiagEps
    (((List.range sel.length).map (fun i =>
        (List.range sel.length).map (fun j =>
          spherical (sqrt (sqDistPP (sel.getD i (0,0,0,0)) (sel.getD j (0,0,0,0)))))
        ++ [1]))
      ++ [List.replicate sel.length 1 ++ [0]])

/-- The right-hand side vector of engine.py lines 404-411: variogram values
from each neighbor to the block center, then 1. -/
def krigeK (sqrt : ℚ → ℚ) (sel : List (ℚ × ℚ × ℚ × ℚ)) (c : ℚ × ℚ × ℚ) : List ℚ :=
  ((List.range sel.length).map (fun i =>
      spherical (sqrt (sqDistPC (sel.getD i (0,0,0,0)) c)))) ++ [1]

/-- The estimate the code stores into one block (engine.py lines 366-436):
radius query, the nearest-neighbor fallbacks, optional truncation to the 12
nearest, and the ordinary kriging solve.  In the fallback branches the code
takes vs[idx][0], the value of the first entry of the query result.  The
np.argsort truncation is modelled with a stable sort on squared distances
(ties by insertion order).  Exact arithmetic yields no NaN, so the final
NaN-to-None conversion of the code has no counterpart. -/
def krigeValue (sqrt : ℚ → ℚ) (pts : List (ℚ × ℚ × ℚ × ℚ)) (c : ℚ × ℚ × ℚ) :
    Option ℚ :=
  let idx := pts.filter (fun p => decide (sqDistPC p c ≤ SEARCH_RADIUS * SEARCH_RADIUS))
  if idx.length = 0 then none
  else if idx.length < 3 then some ((idx.headD (0,0,0,0)).2.2.2)
  else
    let sel := if idx.length > MAX_NEIGH then
        (idx.mergeSort (fun p q => decide (sqDistPC p c ≤ sqDistPC q c))).take MAX_NEIGH
      else idx
    let aug := (krigeP sqrt sel).zipWith (fun row kv => row ++ [kv]) (krigeK sqrt sel c)
    match gaussSolve aug with
    | none => some ((sel.headD (0,0,0,0)).2.2.2)
    | some w => some (dotQ (w.take sel.length) (sel.map (fun p => p.2.2.2)))

/-- Embedding of CoreLabEngine.krige_blocks (engine.py lines 307-438): the
input points are the composites with a present value, in order; every block
record is returned with only its value field rewritten.  In python the
assignment b["value"] = ... writes into the block dicts the caller passed
in, and the same list object is returned. -/
def krige_blocks (sqrt : ℚ → ℚ) (composites : List Composite) (blocks : List Block) :
    List Block :=
  let pts := composites.filterMap (fun comp => comp.value.map
    (fun v => (comp.x, comp.y, comp.z, v)))
  if pts.length < 1 then blocks.map (fun b => { b with value := none })
  else blocks.map (fun b => { b with value := krigeValue sqrt pts (b.x, b.y, b.z) })

/-- Modelled from the wording of the spec (claim C2): the value of the
neighbor nearest to the block center by Euclidean distance, ties broken by
original insertion order (squared distances order exactly as distances). -/
def specNearestValue (pts : List (ℚ × ℚ × ℚ × ℚ)) (c : ℚ × ℚ × ℚ) : Option ℚ :=
  (pyMinBy (fun p => sqDistPC p c) pts).map (fun p => p.2.2.2)

/-- Matrix-vector product over list representations. -/
def matVec (m : List (List ℚ)) (w : List ℚ) : List ℚ :=
  m.map (fun row => dotQ row w)

/-- Two composite points for the C2 failing input: the farther point (at
distance 50 from the block center) comes first in insertion order, the
nearer one (distance 10) second. -/
def exCompsC2 : List Composite :=
  [{ hole_id := "H", fromD := 0, toD := 1, value := some 1, x := 50, y := 0, z := 0, mid_depth := 0 },
   { hole_id := "H", fromD := 1, toD := 2, value := some 2, x := 10, y := 0, z := 0, mid_depth := 0 }]

/-- A single block at the origin for the C2 failing input. -/
def exBlocksC2 : List Block :=
  [{ x := 0, y := 0, z := 0, size_x := 10, size_y := 10, size_z := 10, value := none }]

/-! ## 6. Frame behavior of krige_blocks (claim C9) -/

/-- The records reachable from a krige_blocks call: the composite records it
reads and the block records it receives. -/
structure EngineState where
  composites : List Composite
  blocks : List Block
deriving DecidableEq

/-- The caller-visible effect of krige_blocks on the records it receives.
In python the loop executes b["value"] = ... on each block dict of the list
the caller passed in and returns that same list object; after the call, the
caller sees its block records updated in place.  State passing renders this:
the post-call blocks are krige_blocks of the pre-call blocks, and the
composites are only read. -/
def krigeEffect (sqrt : ℚ → ℚ) (s : EngineState) : EngineState :=
  { composites := s.composites, blocks := krige_blocks sqrt s.composites s.blocks }

/-- Default block record used with List.getD in index statements. -/
def defaultBlock : Block := { x := 0, y := 0, z := 0, size_x := 0, size_y := 0, size_z := 0, value := none }

/-! ## 7. Grid construction (generate_block_model in backend/main.py) -/

/-- One axis of the nested block loops of main.py lines 586-606: starting at
the padded minimum and stepping by the block size while the position is
strictly below the padded maximum, emit the block center position + size/2.
The guard 0 < size reflects the precondition that the block size is positive
(python would loop forever otherwise). -/
def axisCenters (size mx : ℚ) (pos : ℚ) : List ℚ :=
  if h : 0 < size ∧ pos < mx then (pos + size / 2) :: axisCenters size mx (pos + size)
  else []
termination_by (⌈(mx - pos) / size⌉).toNat
decreasing_by
  obtain ⟨hL, hlt⟩ := h
  have hq : 0 < (mx - pos) / size := div_pos (by linarith) hL
  have h1 : (mx - (pos + size)) / size = (mx - pos) / size - 1 := by
    field_simp
    ring
  have h2 : 0 < ⌈(mx - pos) / size⌉ := Int.ceil_pos.2 hq
  rw [h1, Int.ceil_sub_one]
  omega

/-- The triple nested block loop of main.py (x outer, y middle, z inner);
each emitted block carries its center and sizes.  The sentinel estimate
field written by main.py is caller post-processing and is not part of the
block geometry. -/
def generate_blocks (minX maxX minY maxY minZ maxZ sx sy sz : ℚ) : List Block :=
  (axisCenters sx maxX minX).flatMap (fun cx =>
    (axisCenters sy maxY minY).flatMap (fun cy =>
      (axisCenters sz maxZ minZ).map (fun cz =>
        { x := cx, y := cy, z := cz, size_x := sx, size_y := sy, size_z := sz,
          value := none })))

/-! ## 8. Bounding box (CoreLabEngine.auto_detect_bbox) -/

/-- A surface point extracted from a DXF file. -/
structure SurfPoint where
  x : ℚ
  y : ℚ
  z : ℚ
deriving DecidableEq

/-- The bounding box record returned by auto_detect_bbox. -/
structure BBox where
  minX : ℚ
  maxX : ℚ
  minY : ℚ
  maxY : ℚ
  minZ : ℚ
  maxZ : ℚ
deriving DecidableEq

/-- Python min over a nonempty list (0 on the empty list, which
auto_detect_bbox never reaches). -/
def pyMin : List ℚ → ℚ
  | [] => 0
  | a :: t => t.foldl min a

/-- Python max over a nonempty list (0 on the empty list, which
auto_detect_bbox never reaches). -/
def pyMax : List ℚ → ℚ
  | [] => 0
  | a :: t => t.foldl max a

/-- The x coordinates collected by auto_detect_bbox: every trajectory point
of every drillhole, then every surface point (engine.py lines 637-651; the
python truthiness guard on surface_points only skips iterating an empty or
absent collection, which appends nothing anyway). -/
def allXs (drillholes : List Hole) (surface_points : List SurfPoint) : List ℚ :=
  drillholes.flatMap (fun dh => dh.trajectory.map (fun p => p.x))
    ++ surface_points.map (fun p => p.x)

/-- The y coordinates collected by auto_detect_bbox. -/
def allYs (drillholes : List Hole) (surface_points : List SurfPoint) : List ℚ :=
  drillholes.flatMap (fun dh => dh.trajectory.map (fun p => p.y))
    ++ surface_points.map (fun p => p.y)

/-- The z coordinates collected by auto_detect_bbox. -/
def allZs (drillholes : List Hole) (surface_points : List SurfPoint) : List ℚ :=
  drillholes.flatMap (fun dh => dh.trajectory.map (fun p => p.z))
    ++ surface_points.map (fun p => p.z)

/-- Embedding of CoreLabEngine.auto_detect_bbox (engine.py lines 626-670):
collect all coordinates, fail when there are none, otherwise return the
componentwise min and max with the padding subtracted from each minimum and
added to each maximum. -/
def auto_detect_bbox (drillholes : List Hole) (surface_points : List SurfPoint)
    (padding : ℚ) : Except String BBox :=
  let xs := allXs drillholes surface_points
  let ys := allYs drillholes surface_points
  let zs := allZs drillholes surface_points
  if xs.length = 0 then Except.error "No existen puntos para calcular bounding box."
  else Except.ok
    { minX := pyMin xs - padding, maxX := pyMax xs + padding,
      minY := pyMin ys - padding, maxY := pyMax ys + padding,
      minZ := pyMin zs - padding, maxZ := pyMax zs + padding }

/-- Concrete drillhole list for the C7 witness. -/
def exHolesC7 : List Hole :=
  [{ hole_id := "H1", trajectory := [⟨0,0,100,0⟩, ⟨3,4,90,10⟩] }]

/-- Concrete surface point list for the C7 witness. -/
def exSurfC7 : List SurfPoint := [{ x := -5, y := 7, z := 120 }]

/-- The bounding box computed for the C7 witness input. -/
def exBBoxC7 : BBox :=
  { minX := -25, maxX := 23, minY := -20, maxY := 27, minZ := 70, maxZ := 140 }

/-! ## 9. DXF surface extraction (CoreLabEngine.load_dxf_surface)

The source wraps only the per-vertex attribute access of the 3DFACE loop in
try/except (engine.py lines 572-579); in every other loop an exception
propagates out of load_dxf_surface and aborts the whole parse, discarding
all points collected so far.  The embedding makes this explicit: per-entity
extraction returns Except, and the six sequential typed loops are sequenced
so that the first raised exception aborts the function.  Malformed or
attribute-missing data is representable wherever the ezdxf interface can
produce it: an absent LWPOLYLINE elevation, a POLYLINE vertex without a
location attribute, absent 3DFACE vertex attributes, LINE endpoints without
start or end attributes, and SPLINE control points without a z component.
Two loops raise even on well-formed entities: MESH vertices are plain
coordinate triples (ezdxf Vec3 values, so v.dxf.location raises
AttributeError on every vertex), and LWPOLYLINE get_points() yields
five-component tuples (x, y, start width, end width, bulge) that the source
unpacks into four names, raising ValueError on the first point. -/

/-- A geometry entity of the DXF model space, as the code reads it through
the ezdxf interface (engine.py lines 528-620). -/
inductive DxfEntity
  | lwpolyline (elevation : Option ℚ) (pts : List (ℚ × ℚ × ℚ × ℚ × ℚ))
  | polyline (is_3d_polyline : Bool) (vertices : List (Option (ℚ × ℚ × ℚ)))
  | face3d (vtx0 vtx1 vtx2 vtx3 : Option (ℚ × ℚ × ℚ))
  | mesh (vertices : List (ℚ × ℚ × ℚ))
  | line (start_point end_point : Option (ℚ × ℚ × ℚ))
  | spline (control_points : List (ℚ × ℚ × Option ℚ))
deriving DecidableEq

/-- Entity type test used by the msp.query("LWPOLYLINE") loop. -/
def isLWPOLYLINE : DxfEntity → Bool
  | .lwpolyline _ _ => true
  | _ => false

/-- Entity type test used by the msp.query("POLYLINE") loop. -/
def isPOLYLINE : DxfEntity → Bool
  | .polyline _ _ => true
  | _ => false

/-- Entity type test used by the msp.query("3DFACE") loop. -/
def is3DFACE : DxfEntity → Bool
  | .face3d _ _ _ _ => true
  | _ => false

/-- Entity type test used by the msp.query("MESH") loop. -/
def isMESH : DxfEntity → Bool
  | .mesh _ => true
  | _ => false

/-- Entity type test used by the msp.query("LINE") loop. -/
def isLINE : DxfEntity → Bool
  | .line _ _ => true
  | _ => false

/-- Entity type test used by the msp.query("SPLINE") loop. -/
def isSPLINE : DxfEntity → Bool
  | .spline _ => true
  | _ => false

/-- The POLYLINE vertex loop body (engine.py lines 558-565): each vertex
contributes v.dxf.location; a vertex whose location attribute is missing or
malformed raises, unguarded, and the exception aborts the parse. -/
def polyVertices : List (Option (ℚ × ℚ × ℚ)) → Except String (List SurfPoint)
  | [] => Except.ok []
  | none :: _ => Except.error "DXFAttributeError: missing vertex location"
  | some v :: rest =>
      match polyVertices rest with
      | Except.error msg => Except.error msg
      | Except.ok ps =>
          Except.ok (({ x := v.1, y := v.2.1, z := v.2.2 } : SurfPoint) :: ps)

/-- The points one entity contributes, or the exception its loop body
raises (engine.py lines 547-620).  Only the 3DFACE attribute accesses are
guarded by try/except, so a missing or malformed face vertex is skipped
individually.  The LWPOLYLINE loop unpacks the five-component points of
get_points() into four names and therefore raises on the first point; the
MESH loop reads v.dxf.location on plain Vec3 vertices and therefore raises
on the first vertex; a 2D POLYLINE is skipped by the is_3d_polyline test
and an empty iteration raises nothing. -/
def entityPoints : DxfEntity → Except String (List SurfPoint)
  | .lwpolyline elevation pts =>
      let elev : ℚ := match elevation with
        | some e => e
        | none => 0
      match pts with
      | [] => Except.ok []
      | _ :: _ => Except.error "ValueError: too many values to unpack"
  | .polyline is3d verts =>
      if is3d then polyVertices verts else Except.ok []
  | .face3d v0 v1 v2 v3 =>
      Except.ok (([v0, v1, v2, v3].filterMap id).map
        (fun v => ({ x := v.1, y := v.2.1, z := v.2.2 } : SurfPoint)))
  | .mesh verts =>
      match verts with
      | [] => Except.ok []
      | _ :: _ => Except.error "AttributeError: mesh vertex Vec3 has no dxf attribute"
  | .line s e =>
      match s, e with
      | some a, some b =>
          Except.ok [{ x := a.1, y := a.2.1, z := a.2.2 },
            { x := b.1, y := b.2.1, z := b.2.2 }]
      | _, _ => Except.error "DXFAttributeError: missing line endpoint"
  | .spline ctrl =>
      Except.ok (ctrl.map (fun v => { x := v.1, y := v.2.1, z := (v.2.2).getD 0 }))

/-- One typed query loop: process the matching entities in model-space
order, concatenating their points; the first exception aborts the loop and,
with it, the whole parse, discarding everything collected so far. -/
def extractLoop : List DxfEntity → Except String (List SurfPoint)
  | [] => Except.ok []
  | e :: rest =>
      match entityPoints e with
      | Except.error msg => Except.error msg
      | Except.ok ps =>
          match extractLoop rest with
          | Except.error msg => Except.error msg
          | Except.ok qs => Except.ok (ps ++ qs)

/-- Embedding of CoreLabEngine.load_dxf_surface: six sequential typed
queries over the model space; on success the output is grouped by entity
type, each group in model-space order; an exception raised in any loop
aborts the whole parse with no points returned. -/
def load_dxf_surface (entities : List DxfEntity) : Except String (List SurfPoint) :=
  match extractLoop (entities.filter isLWPOLYLINE) with
  | Except.error msg => Except.error msg
  | Except.ok l1 =>
    match extractLoop (entities.filter isPOLYLINE) with
    | Except.error msg => Except.error msg
    | Except.ok l2 =>
      match extractLoop (entities.filter is3DFACE) with
      | Except.error msg => Except.error msg
      | Except.ok l3 =>
        match extractLoop (entities.filter isMESH) with
        | Except.error msg => Except.error msg
        | Except.ok l4 =>
          match extractLoop (entities.filter isLINE) with
          | Except.error msg => Except.error msg
          | Except.ok l5 =>
            match extractLoop (entities.filter isSPLINE) with
            | Except.error msg => Except.error msg
            | Except.ok l6 => Except.ok (l1 ++ l2 ++ l3 ++ l4 ++ l5 ++ l6)

/-- A 3D polyline whose only vertex is missing its location attribute: the
POLYLINE loop raises on it, unguarded. -/
def exBadPolyC8 : DxfEntity := DxfEntity.polyline true [none]

/-- A well-formed line entity with both endpoint attributes present. -/
def exLineC8 : DxfEntity := DxfEntity.line (some (1, 2, 3)) (some (4, 5, 6))

/-! ## Theorems -/

theorem trajLoop_length {α : Type} [LinearOrderedField α] (rad sin cos : α → α) :
    ∀ (rows : List (Station α)) (x y z d : α),
      (trajLoop rad sin cos x y z d rows).length = rows.length := by
  intro rows
  induction rows with
  | nil => intro x y z d; rfl
  | cons r rest ih => intro x y z d; simp [trajLoop, ih]

theorem traj_getD_step {α : Type} [LinearOrderedField α] (rad sin cos : α → α) :
    ∀ (rows : List (Station α)) (p : α × α × α × α) (i : ℕ), i < rows.length →
      (p :: trajLoop rad sin cos p.1 p.2.1 p.2.2.1 p.2.2.2 rows).getD (i+1) (0,0,0,0)
        = trajStep rad sin cos
            ((p :: trajLoop rad sin cos p.1 p.2.1 p.2.2.1 p.2.2.2 rows).getD i (0,0,0,0))
            (rows.getD i ⟨0,0,0⟩) := by
  intro rows
  induction rows with
  | nil => intro p i h; simp at h
  | cons s rest ih =>
      intro p i h
      match i with
      | 0 => simp [trajLoop, trajStep]
      | Nat.succ j =>
          have hj : j < rest.length := by simpa using Nat.lt_of_succ_lt_succ h
          have := ih (trajStep rad sin cos p s) j hj
          simpa [trajLoop, trajStep] using this

/-- Claim C4: for every collar point and every sequence of survey stations
(including the empty sequence), the computed trajectory has exactly one more
point than there are stations, its first element is the collar coordinate at
depth 0, and the depth of each subsequent point equals the corresponding
station depth (out-of-range indices are compared through equal defaults). -/
theorem trajectory_shape {α : Type} [LinearOrderedField α] (rad sin cos : α → α)
    (collar : α × α × α) (survey : List (Station α)) :
    (compute_trajectory rad sin cos collar survey).length = survey.length + 1
    ∧ (compute_trajectory rad sin cos collar survey).getD 0 (0,0,0,0)
        = (collar.1, collar.2.1, collar.2.2, 0)
    ∧ ∀ i : ℕ,
        ((compute_trajectory rad sin cos collar survey).getD (i+1) (0,0,0,0)).2.2.2
          = (survey.getD i ⟨0,0,0⟩).AT := by
  refine ⟨by simp [compute_trajectory, trajLoop_length], rfl, ?_⟩
  intro i
  by_cases h : i < survey.length
  · have := traj_getD_step rad sin cos survey
      (collar.1, collar.2.1, collar.2.2, 0) i h
    rw [show (compute_trajectory rad sin cos collar survey)
          = (collar.1, collar.2.1, collar.2.2, (0:α))
              :: trajLoop rad sin cos collar.1 collar.2.1 collar.2.2 0 survey from rfl]
    rw [this]
    rfl
  · have hlen : (compute_trajectory rad sin cos collar survey).length = survey.length + 1 := by
      simp [compute_trajectory, trajLoop_length]
    have h1 : (compute_trajectory rad sin cos collar survey).length ≤ i + 1 := by omega
    have h2 : survey.length ≤ i := by omega
    rw [List.getD_eq_default _ _ h1, List.getD_eq_default _ _ h2]

/-- Claim C5: each survey station step updates the position by
dx = advance*sin(az)*cos(dip), dy = advance*cos(az)*cos(dip),
dz = advance*sin(dip), with x += dx, y += dy and z decreased by the absolute
value of dz; hence for non-negative advance the z coordinate never increases,
whatever the sign of the dip angle. -/
theorem trajectory_step_formula {α : Type} [LinearOrderedField α]
    (rad sin cos : α → α) (collar : α × α × α) (survey : List (Station α))
    (i : ℕ) (h : i < survey.length) :
    ((compute_trajectory rad sin cos collar survey).getD (i+1) (0,0,0,0)
        = trajStep rad sin cos
            ((compute_trajectory rad sin cos collar survey).getD i (0,0,0,0))
            (survey.getD i ⟨0,0,0⟩))
    ∧ (0 ≤ (survey.getD i ⟨0,0,0⟩).AT
          - ((compute_trajectory rad sin cos collar survey).getD i (0,0,0,0)).2.2.2 →
        ((compute_trajectory rad sin cos collar survey).getD (i+1) (0,0,0,0)).2.2.1
          ≤ ((compute_trajectory rad sin cos collar survey).getD i (0,0,0,0)).2.2.1) := by
  have hstep := traj_getD_step rad sin cos survey
    (collar.1, collar.2.1, collar.2.2, 0) i h
  have hstep2 : (compute_trajectory rad sin cos collar survey).getD (i+1) (0,0,0,0)
      = trajStep rad sin cos
          ((compute_trajectory rad sin cos collar survey).getD i (0,0,0,0))
          (survey.getD i ⟨0,0,0⟩) := hstep
  refine ⟨hstep2, ?_⟩
  intro _
  rw [hstep2]
  have : |((survey.getD i ⟨0,0,0⟩).AT
      - ((compute_trajectory rad sin cos collar survey).getD i (0,0,0,0)).2.2.2)
      * sin (rad (survey.getD i ⟨0,0,0⟩).DIP)| ≥ 0 := abs_nonneg _
  simp only [trajStep]
  linarith

/-- Witness for C5 at a concrete input: collar (0,0,100), one station at
depth 10, instantiated over the rationals with the identity in place of the
trigonometric primitives. -/
theorem trajectory_step_formula_witness :
    (0 : ℕ) < ([⟨10, 0, 0⟩] : List (Station ℚ)).length
    ∧ ((compute_trajectory id id id ((0:ℚ),0,100) [⟨10,0,0⟩]).getD 1 (0,0,0,0)
        = trajStep id id id
            ((compute_trajectory id id id ((0:ℚ),0,100) [⟨10,0,0⟩]).getD 0 (0,0,0,0))
            (([⟨10,0,0⟩] : List (Station ℚ)).getD 0 ⟨0,0,0⟩)) := by
  refine ⟨by decide, ?_⟩
  exact (trajectory_step_formula (α := ℚ) id id id (0,0,100) [⟨10,0,0⟩] 0 (by decide)).1

theorem windowTotals_foldl (top_cut : Option ℚ) (s e : ℚ) :
    ∀ (ints : List AssayRow) (init : ℚ × ℚ),
      (∀ r ∈ ints, 0 < min r.TO e - max r.FROM s) →
      ints.foldl (fun acc r =>
        match r.value with
        | none => acc
        | some v0 =>
            let v : ℚ := match top_cut with
              | some tc => if v0 > tc then tc else v0
              | none => v0
            let overlap : ℚ := min r.TO e - max r.FROM s
            if 0 < overlap then (acc.1 + v * overlap, acc.2 + overlap) else acc) init
      = (init.1 + ((ints.filterMap (fun r => r.value.map (fun v0 =>
            ((match top_cut with
              | some tc => if v0 > tc then tc else v0
              | none => v0),
             min r.TO e - max r.FROM s)))).map (fun p => p.1 * p.2)).sum,
         init.2 + ((ints.filterMap (fun r => r.value.map (fun v0 =>
            ((match top_cut with
              | some tc => if v0 > tc then tc else v0
              | none => v0),
             min r.TO e - max r.FROM s)))).map (fun p => p.2)).sum) := by
  intro ints
  induction ints with
  | nil => intro init _; simp
  | cons r rest ih =>
      intro init hmem
      have hr := hmem r (by simp)
      have hrest : ∀ q ∈ rest, 0 < min q.TO e - max q.FROM s := by
        intro q hq; exact hmem q (by simp [hq])
      match hv : r.value with
      | none =>
          simp only [List.foldl_cons, hv]
          rw [ih _ hrest]
          simp [hv]
      | some v0 =>
          simp only [List.foldl_cons, hv, if_pos hr]
          rw [ih _ hrest]
          simp only [List.filterMap_cons, hv, Option.map_some, Option.map_some',
            List.map_cons, List.sum_cons, Prod.mk.injEq]
          constructor <;> ring

/-- The totals accumulated by the code for one window equal the sums of the
clamped values weighted by overlap over the non-missing selected intervals,
provided every selected interval has positive overlap. -/
theorem windowTotals_eq (top_cut : Option ℚ) (s e : ℚ) (ints : List AssayRow)
    (hpos : ∀ r ∈ ints, 0 < min r.TO e - max r.FROM s) :
    windowTotals top_cut s e ints
      = (((ints.filterMap (fun r => r.value.map (fun v0 =>
            ((match top_cut with
              | some tc => if v0 > tc then tc else v0
              | none => v0),
             min r.TO e - max r.FROM s)))).map (fun p => p.1 * p.2)).sum,
         ((ints.filterMap (fun r => r.value.map (fun v0 =>
            ((match top_cut with
              | some tc => if v0 > tc then tc else v0
              | none => v0),
             min r.TO e - max r.FROM s)))).map (fun p => p.2)).sum) := by
  have := windowTotals_foldl top_cut s e ints (0, 0) hpos
  simpa [windowTotals] using this

theorem ceil_step (L maxD s : ℚ) (hL : 0 < L) (hs : s < maxD) :
    (⌈(maxD - (s + L)) / L⌉).toNat + 1 = (⌈(maxD - s) / L⌉).toNat := by
  have hq : 0 < (maxD - s) / L := div_pos (by linarith) hL
  have h1 : (maxD - (s + L)) / L = (maxD - s) / L - 1 := by
    field_simp
    ring
  have h2 : 0 < ⌈(maxD - s) / L⌉ := Int.ceil_pos.2 hq
  rw [h1, Int.ceil_sub_one]
  omega

theorem buildCompLoop_pos (hid : String) (traj : List TrajPoint)
    (rows : List AssayRow) (L : ℚ) (tc : Option ℚ) (ms : ℕ) (maxD s : ℚ)
    (hL : 0 < L) (hs : s < maxD) :
    buildCompLoop hid traj rows L tc ms maxD s
      = (if (rows.filter (fun r => decide (r.FROM < s + L ∧ r.TO > s))).length < ms then
          buildCompLoop hid traj rows L tc ms maxD (s + L)
        else
          { hole_id := hid, fromD := s, toD := s + L,
            value := if 0 < (windowTotals tc s (s + L)
                  (rows.filter (fun r => decide (r.FROM < s + L ∧ r.TO > s)))).2 then
                some ((windowTotals tc s (s + L)
                  (rows.filter (fun r => decide (r.FROM < s + L ∧ r.TO > s)))).1
                  / (windowTotals tc s (s + L)
                  (rows.filter (fun r => decide (r.FROM < s + L ∧ r.TO > s)))).2)
              else none,
            x := ((pyMinBy (fun p => |p.depth - (s + (s + L)) / 2|) traj).getD ⟨0,0,0,0⟩).x,
            y := ((pyMinBy (fun p => |p.depth - (s + (s + L)) / 2|) traj).getD ⟨0,0,0,0⟩).y,
            z := ((pyMinBy (fun p => |p.depth - (s + (s + L)) / 2|) traj).getD ⟨0,0,0,0⟩).z,
            mid_depth := (s + (s + L)) / 2 }
            :: buildCompLoop hid traj rows L tc ms maxD (s + L)) := by
  rw [buildCompLoop, dif_pos ⟨hL, hs⟩]

theorem buildCompLoop_neg (hid : String) (traj : List TrajPoint)
    (rows : List AssayRow) (L : ℚ) (tc : Option ℚ) (ms : ℕ) (maxD s : ℚ)
    (h : ¬ (0 < L ∧ s < maxD)) :
    buildCompLoop hid traj rows L tc ms maxD s = [] := by
  rw [buildCompLoop, dif_neg h]

theorem specWindows_pos (L maxD s : ℚ) (hL : 0 < L) (hs : s < maxD) :
    specWindows L maxD s = s :: specWindows L maxD (s + L) := by
  rw [specWindows, dif_pos ⟨hL, hs⟩]

theorem specWindows_neg (L maxD s : ℚ) (h : ¬ (0 < L ∧ s < maxD)) :
    specWindows L maxD s = [] := by
  rw [specWindows, dif_neg h]

/-- The option record computed by the spec description for a window equals
the one the code computes from a permutation of the same rows, provided all
rows have FROM < TO. -/
theorem specWindowRecord_eq_code (rows rows0 : List AssayRow)
    (hperm : rows.Perm rows0) (hto : ∀ r ∈ rows0, r.FROM < r.TO)
    (L : ℚ) (hL : 0 < L) (tc : Option ℚ) (ms : ℕ) (s : ℚ) :
    specWindowRecord rows0 L tc ms s
      = (if (rows.filter (fun r => decide (r.FROM < s + L ∧ r.TO > s))).length < ms then
          none
        else some (s, s + L,
          if 0 < (windowTotals tc s (s + L)
                (rows.filter (fun r => decide (r.FROM < s + L ∧ r.TO > s)))).2 then
            some ((windowTotals tc s (s + L)
                (rows.filter (fun r => decide (r.FROM < s + L ∧ r.TO > s)))).1
              / (windowTotals tc s (s + L)
                (rows.filter (fun r => decide (r.FROM < s + L ∧ r.TO > s)))).2)
          else none)) := by
  have hps : (rows.filter (fun r => decide (r.FROM < s + L ∧ r.TO > s))).Perm
      (rows0.filter (fun r => decide (r.FROM < s + L ∧ r.TO > s))) := hperm.filter _
  have hpos0 : ∀ r ∈ rows0.filter (fun r => decide (r.FROM < s + L ∧ r.TO > s)),
      0 < min r.TO (s + L) - max r.FROM s := by
    intro r hr
    rw [List.mem_filter] at hr
    obtain ⟨hr0, hc⟩ := hr
    have hc2 : r.FROM < s + L ∧ r.TO > s := of_decide_eq_true hc
    have hft := hto r hr0
    have hmm : max r.FROM s < min r.TO (s + L) :=
      max_lt (lt_min hft hc2.1) (lt_min hc2.2 (by linarith))
    linarith [hmm]
  have hpos : ∀ r ∈ rows.filter (fun r => decide (r.FROM < s + L ∧ r.TO > s)),
      0 < min r.TO (s + L) - max r.FROM s := by
    intro r hr
    exact hpos0 r (hps.mem_iff.1 hr)
  have htw := windowTotals_eq tc s (s + L)
    (rows.filter (fun r => decide (r.FROM < s + L ∧ r.TO > s))) hpos
  have htw0 := windowTotals_eq tc s (s + L)
    (rows0.filter (fun r => decide (r.FROM < s + L ∧ r.TO > s))) hpos0
  have hpfm := hps.filterMap (fun r => r.value.map (fun v0 =>
      ((match tc with
        | some tcv => if v0 > tcv then tcv else v0
        | none => v0),
       min r.TO (s + L) - max r.FROM s)))
  have hsum1 : ((List.filterMap (fun r => r.value.map (fun v0 =>
      ((match tc with
        | some tcv => if v0 > tcv then tcv else v0
        | none => v0),
       min r.TO (s + L) - max r.FROM s)))
      (rows.filter (fun r => decide (r.FROM < s + L ∧ r.TO > s)))).map
        (fun p => p.1 * p.2)).sum
      = ((List.filterMap (fun r => r.value.map (fun v0 =>
      ((match tc with
        | some tcv => if v0 > tcv then tcv else v0
        | none => v0),
       min r.TO (s + L) - max r.FROM s)))
      (rows0.filter (fun r => decide (r.FROM < s + L ∧ r.TO > s)))).map
        (fun p => p.1 * p.2)).sum :=
    (hpfm.map (fun p => p.1 * p.2)).sum_eq
  have hsum2 : ((List.filterMap (fun r => r.value.map (fun v0 =>
      ((match tc with
        | some tcv => if v0 > tcv then tcv else v0
        | none => v0),
       min r.TO (s + L) - max r.FROM s)))
      (rows.filter (fun r => decide (r.FROM < s + L ∧ r.TO > s)))).map
        (fun p => p.2)).sum
      = ((List.filterMap (fun r => r.value.map (fun v0 =>
      ((match tc with
        | some tcv => if v0 > tcv then tcv else v0
        | none => v0),
       min r.TO (s + L) - max r.FROM s)))
      (rows0.filter (fun r => decide (r.FROM < s + L ∧ r.TO > s)))).map
        (fun p => p.2)).sum :=
    (hpfm.map (fun p => p.2)).sum_eq
  have hwnn : 0 ≤ ((List.filterMap (fun r => r.value.map (fun v0 =>
      ((match tc with
        | some tcv => if v0 > tcv then tcv else v0
        | none => v0),
       min r.TO (s + L) - max r.FROM s)))
      (rows0.filter (fun r => decide (r.FROM < s + L ∧ r.TO > s)))).map
        (fun p => p.2)).sum := by
    apply List.sum_nonneg
    intro a ha
    rw [List.mem_map] at ha
    obtain ⟨p, hp, rfl⟩ := ha
    rw [List.mem_filterMap] at hp
    obtain ⟨r, hr, hg⟩ := hp
    have := hpos0 r hr
    cases hv : r.value with
    | none => rw [hv] at hg; simp at hg
    | some v0 =>
        rw [hv] at hg
        simp only [Option.map_some, Option.map_some', Option.some.injEq] at hg
        have hp2 : p.2 = min r.TO (s + L) - max r.FROM s := by
          rw [← hg]
        rw [hp2]
        linarith
  simp only [specWindowRecord]
  have hlen : (rows0.filter (fun r => decide (r.FROM < s + L ∧ r.TO > s))).length
      = (rows.filter (fun r => decide (r.FROM < s + L ∧ r.TO > s))).length :=
    hps.length_eq.symm
  rw [hlen, htw]
  by_cases hms : (rows.filter (fun r => decide (r.FROM < s + L ∧ r.TO > s))).length < ms
  · rw [if_pos hms, if_pos hms]
  · rw [if_neg hms, if_neg hms]
    dsimp only
    rw [← hsum1, ← hsum2]
    have hwnn2 : 0 ≤ ((List.filterMap (fun r => r.value.map (fun v0 =>
        ((match tc with
          | some tcv => if v0 > tcv then tcv else v0
          | none => v0),
         min r.TO (s + L) - max r.FROM s)))
        (rows.filter (fun r => decide (r.FROM < s + L ∧ r.TO > s)))).map
          (fun p => p.2)).sum := by
      rw [hsum2]; exact hwnn
    rcases eq_or_lt_of_le hwnn2 with hw0 | hwpos
    · rw [if_pos hw0.symm, if_neg (by rw [← hw0]; exact lt_irrefl 0)]
    · rw [if_neg (ne_of_gt hwpos), if_pos hwpos]

theorem buildCompLoop_spec (hid : String) (traj : List TrajPoint)
    (rows rows0 : List AssayRow) (hperm : rows.Perm rows0)
    (hto : ∀ r ∈ rows0, r.FROM < r.TO) (L : ℚ) (hL : 0 < L)
    (tc : Option ℚ) (ms : ℕ) (maxD : ℚ) :
    ∀ (n : ℕ) (s : ℚ), (⌈(maxD - s) / L⌉).toNat = n →
      (buildCompLoop hid traj rows L tc ms maxD s).map (fun c => (c.fromD, c.toD, c.value))
        = (specWindows L maxD s).filterMap (specWindowRecord rows0 L tc ms) := by
  intro n
  induction n with
  | zero =>
      intro s hn
      have hs : ¬ s < maxD := by
        intro hs
        have h2 : 0 < ⌈(maxD - s) / L⌉ := Int.ceil_pos.2 (div_pos (by linarith) hL)
        omega
      rw [buildCompLoop_neg _ _ _ _ _ _ _ _ (by tauto),
          specWindows_neg _ _ _ (by tauto)]
      simp
  | succ n ih =>
      intro s hn
      by_cases hs : s < maxD
      · have hnext : (⌈(maxD - (s + L)) / L⌉).toNat = n := by
          have := ceil_step L maxD s hL hs
          omega
        have hrec := ih (s + L) hnext
        rw [buildCompLoop_pos _ _ _ _ _ _ _ _ hL hs, specWindows_pos _ _ _ hL hs,
            List.filterMap_cons, specWindowRecord_eq_code rows rows0 hperm hto L hL tc ms s]
        by_cases hms : (rows.filter
            (fun r => decide (r.FROM < s + L ∧ r.TO > s))).length < ms
        · rw [if_pos hms, if_pos hms]
          exact hrec
        · rw [if_neg hms, if_neg hms, List.map_cons, hrec]
      · rw [buildCompLoop_neg _ _ _ _ _ _ _ _ (by tauto),
            specWindows_neg _ _ _ (by tauto)]
        simp

/-- Claim C3: the records produced by build_composites are exactly one record
per window [s, s+L), walked from s=0 while s < max_depth, for which at least
min_samples assay intervals of the hole satisfy FROM < s+L and TO > s;
windows with fewer such intervals produce nothing, and the emitted value is
the overlap-weighted average of the non-missing top-cut-clamped values, null
(still emitted) when the total overlap weight of the non-missing values
is 0. -/
theorem build_composites_windows (drillholes : List Hole) (assay : List AssayRow)
    (L : ℚ) (tc : Option ℚ) (ms : ℕ) (hL : 0 < L)
    (hto : ∀ r ∈ assay, r.FROM < r.TO) :
    (build_composites drillholes assay L tc ms).map (fun c => (c.fromD, c.toD, c.value))
      = drillholes.flatMap (fun hole =>
          (specWindows L (lastDepth hole.trajectory) 0).filterMap
            (specWindowRecord (assay.filter (fun r => r.ID == hole.hole_id)) L tc ms)) := by
  rw [build_composites, List.map_flatMap]
  apply List.flatMap_congr
  intro hole _
  exact buildCompLoop_spec hole.hole_id hole.trajectory
    ((assay.filter (fun r => r.ID == hole.hole_id)).mergeSort
      (fun a b => decide (a.FROM ≤ b.FROM)))
    (assay.filter (fun r => r.ID == hole.hole_id))
    (List.mergeSort_perm _ _)
    (fun r hr => hto r (List.mem_of_mem_filter hr))
    L hL tc ms (lastDepth hole.trajectory)
    ((⌈(lastDepth hole.trajectory - 0) / L⌉).toNat) 0 rfl

/-- Witness for C3 at a concrete input: one hole with a straight 10 m
trajectory, a single assay interval [0,10] of value 2, composite length 5:
both hypotheses hold and the theorem applies. -/
theorem build_composites_windows_witness :
    ((0:ℚ) < 5 ∧ ∀ r ∈ exAssayC3, r.FROM < r.TO)
    ∧ (build_composites [exHoleC3] exAssayC3 5 none 1).map
          (fun c => (c.fromD, c.toD, c.value))
      = [exHoleC3].flatMap
          (fun hole =>
            (specWindows 5 (lastDepth hole.trajectory) 0).filterMap
              (specWindowRecord
                (exAssayC3.filter (fun r => r.ID == hole.hole_id)) 5 none 1)) := by
  refine ⟨⟨by norm_num, by decide⟩, ?_⟩
  exact build_composites_windows [exHoleC3] exAssayC3 5 none 1 (by norm_num) (by decide)

theorem findSeg_consecutive (mid : ℚ) :
    ∀ (traj : List TrajPoint) (p q : TrajPoint),
      findSeg mid traj = some (p, q) →
      List.Chain' (fun a b => a.depth < b.depth) traj → p.depth < q.depth := by
  intro traj
  induction traj with
  | nil => intro p q h; simp [findSeg] at h
  | cons a rest ih =>
      intro p q h hch
      match rest with
      | [] => simp [findSeg] at h
      | b :: rest2 =>
          rw [findSeg] at h
          by_cases hc : a.depth ≤ mid ∧ mid ≤ b.depth
          · rw [if_pos hc] at h
            obtain ⟨rfl, rfl⟩ : a = p ∧ b = q := by
              constructor <;> [exact congrArg (fun o => (o.getD (a, b)).1) h;
                exact congrArg (fun o => (o.getD (a, b)).2) h]
            exact (List.chain'_cons.1 hch).1
          · rw [if_neg hc] at h
            exact ih p q h (List.chain'_cons.1 hch).2

/-- Claim C10: when the trajectory depths are strictly increasing, the
segment found for any interval midpoint has a nonzero depth difference, so
t = (mid-d1)/(d2-d1) never divides by zero.  The precondition is necessary:
a survey station at the same depth as the collar produces two consecutive
trajectory points at depth 0 (for any trigonometric primitives), and an
assay midpoint of 0 then selects a segment whose depth difference is 0. -/
theorem interpolation_divisor_safety :
    (∀ (traj : List TrajPoint) (mid : ℚ) (p q : TrajPoint),
        List.Chain' (fun a b => a.depth < b.depth) traj →
        findSeg mid (traj.mergeSort (fun a b => decide (a.depth ≤ b.depth))) = some (p, q) →
        q.depth - p.depth ≠ 0)
    ∧ (∀ (rad sin cos : ℚ → ℚ), ∃ p q : TrajPoint,
        findSeg 0 ((toTrajPoints (compute_trajectory rad sin cos (0,0,100)
            [⟨0,0,0⟩])).mergeSort (fun a b => decide (a.depth ≤ b.depth)))
          = some (p, q) ∧ q.depth - p.depth = 0) := by
  constructor
  · intro traj mid p q hch hfound
    haveI : IsTrans TrajPoint (fun a b => a.depth < b.depth) :=
      ⟨fun _ _ _ h1 h2 => lt_trans h1 h2⟩
    have hpw : traj.Pairwise (fun a b => decide (a.depth ≤ b.depth) = true) := by
      have h1 : traj.Pairwise (fun a b : TrajPoint => a.depth < b.depth) :=
        List.chain'_iff_pairwise.1 hch
      exact h1.imp (fun h => by simpa using le_of_lt h)
    rw [List.mergeSort_of_sorted hpw] at hfound
    have hlt := findSeg_consecutive mid traj p q hfound hch
    intro hzero
    linarith
  · intro rad sin cos
    have htraj : toTrajPoints (compute_trajectory rad sin cos ((0:ℚ),0,100) [⟨0,0,0⟩])
        = [⟨0, 0, 100, 0⟩, ⟨0, 0, 100, 0⟩] := by
      simp [compute_trajectory, trajLoop, toTrajPoints]
    refine ⟨⟨0, 0, 100, 0⟩, ⟨0, 0, 100, 0⟩, ?_, by simp⟩
    rw [htraj, List.mergeSort_of_sorted (by decide)]
    decide

/-- Witness for C10 at concrete inputs: the safety part applied to a
strictly increasing two-point trajectory with midpoint 3, and the necessity
part instantiated with the identity as the trigonometric primitives. -/
theorem interpolation_divisor_safety_witness :
    (List.Chain' (fun a b => a.depth < b.depth) exTrajC10
      ∧ findSeg 3 (exTrajC10.mergeSort (fun a b => decide (a.depth ≤ b.depth)))
          = some (⟨0,0,100,0⟩, ⟨0,0,90,10⟩)
      ∧ ((⟨0,0,90,10⟩ : TrajPoint).depth - (⟨0,0,100,0⟩ : TrajPoint).depth ≠ 0))
    ∧ (∃ p q : TrajPoint,
        findSeg 0 ((toTrajPoints (compute_trajectory id id id ((0:ℚ),0,100)
            [⟨0,0,0⟩])).mergeSort (fun a b => decide (a.depth ≤ b.depth)))
          = some (p, q) ∧ q.depth - p.depth = 0) := by
  have hch : List.Chain' (fun a b => a.depth < b.depth) exTrajC10 := by
    norm_num [exTrajC10, List.chain'_cons]
  have hfs : findSeg 3 (exTrajC10.mergeSort (fun a b => decide (a.depth ≤ b.depth)))
      = some (⟨0,0,100,0⟩, ⟨0,0,90,10⟩) := by
    rw [show exTrajC10.mergeSort (fun a b => decide (a.depth ≤ b.depth)) = exTrajC10 from
      List.mergeSort_of_sorted (by decide)]
    decide
  exact ⟨⟨hch, hfs,
      interpolation_divisor_safety.1 exTrajC10 3 ⟨0,0,100,0⟩ ⟨0,0,90,10⟩ hch hfs⟩,
    interpolation_divisor_safety.2 id id id⟩

theorem lastRow_addDiagEps (n : ℕ) :
    ((List.replicate n (1:ℚ) ++ [0]).enum.map
        (fun ja : ℕ × ℚ => if n = ja.1 then ja.2 + 1/1000000 else ja.2))
      = List.replicate n 1 ++ [1/1000000] := by
  apply List.ext_getElem
  · simp
  · intro i h1 h2
    simp only [List.getElem_map, List.getElem_enum]
    have hlen : i < n + 1 := by simpa using h2
    by_cases hi : i < n
    · rw [if_neg (by omega)]
      rw [List.getElem_append_left (by simpa using hi),
        List.getElem_append_left (by simpa using hi)]
    · have hin : i = n := by omega
      subst hin
      rw [if_pos rfl]
      rw [List.getElem_append_right (by simp),
        List.getElem_append_right (by simp)]
      simp

theorem krigeP_last_row (sqrt : ℚ → ℚ) (sel : List (ℚ × ℚ × ℚ × ℚ)) :
    (krigeP sqrt sel).getD sel.length []
      = List.replicate sel.length (1:ℚ) ++ [1/1000000] := by
  set n := sel.length with hn
  set A := (List.range n).map (fun i =>
      (List.range n).map (fun j =>
        spherical (sqrt (sqDistPP (sel.getD i (0,0,0,0)) (sel.getD j (0,0,0,0)))))
      ++ [(1:ℚ)]) with hA
  have hAlen : A.length = n := by simp [hA]
  have hP0len : (A ++ [List.replicate n (1:ℚ) ++ [0]]).length = n + 1 := by
    simp [hAlen]
  have hPlen : (krigeP sqrt sel).length = n + 1 := by
    simp only [krigeP, addDiagEps]
    rw [List.length_map, List.enum_length]
    exact hP0len
  have hlt : n < (krigeP sqrt sel).length := by omega
  rw [List.getD_eq_getElem _ _ hlt]
  simp only [krigeP, addDiagEps]
  rw [List.getElem_map, List.getElem_enum]
  have hb : n < (A ++ [List.replicate n (1:ℚ) ++ [0]]).length := by omega
  have hmid : (A ++ [List.replicate n (1:ℚ) ++ [0]])[n]
      = List.replicate n (1:ℚ) ++ [0] := by
    rw [List.getElem_append_right (by omega)]
    simp [hAlen]
  rw [hmid]
  exact lastRow_addDiagEps n

theorem krigeK_last (sqrt : ℚ → ℚ) (sel : List (ℚ × ℚ × ℚ × ℚ)) (c : ℚ × ℚ × ℚ) :
    (krigeK sqrt sel c).getD sel.length 0 = 1 := by
  have hlen : ((List.range sel.length).map (fun i =>
      spherical (sqrt (sqDistPC (sel.getD i (0,0,0,0)) c)))).length = sel.length := by
    simp
  rw [krigeK, List.getD_eq_getElem _ _ (by simp [hlen]),
    List.getElem_append_right (by omega)]
  simp [hlen]

theorem dotQ_replicate_one (xs : List ℚ) : dotQ (List.replicate xs.length 1) xs = xs.sum := by
  induction xs with
  | nil => rfl
  | cons a t ih =>
      simp only [List.length_cons, List.replicate_succ, dotQ, List.zipWith_cons_cons,
        List.sum_cons, one_mul]
      rw [show (List.zipWith (fun x y => x * y) (List.replicate t.length 1) t).sum
          = dotQ (List.replicate t.length 1) t from rfl, ih]

/-- The unbiasedness row of the perturbed kriging system: for any exact
solution w of the (n+1)-square system the code solves, the weight part sums
to exactly 1 - 1e-6 times the Lagrange multiplier entry.  The claimed bound
|sum - 1| <= 1e-6 therefore holds exactly when the Lagrange multiplier has
absolute value at most 1. -/
theorem krige_weight_sum_identity (sqrt : ℚ → ℚ) (sel : List (ℚ × ℚ × ℚ × ℚ))
    (c : ℚ × ℚ × ℚ) (w : List ℚ) (hw : w.length = sel.length + 1)
    (hsol : matVec (krigeP sqrt sel) w = krigeK sqrt sel c) :
    (w.take sel.length).sum = 1 - (1/1000000) * w.getD sel.length 0 := by
  set n := sel.length with hn
  have hPlen : (krigeP sqrt sel).length = n + 1 := by
    simp only [krigeP, addDiagEps]
    rw [List.length_map, List.enum_length]
    simp
  have hrow := congrArg (fun l => l.getD n 0) hsol
  simp only at hrow
  have hmlen : n < (matVec (krigeP sqrt sel) w).length := by
    simp [matVec, hPlen]
  have hlhs : (matVec (krigeP sqrt sel) w).getD n 0
      = dotQ ((krigeP sqrt sel).getD n []) w := by
    rw [List.getD_eq_getElem _ _ hmlen]
    simp only [matVec, List.getElem_map]
    rw [List.getD_eq_getElem _ _ (by omega)]
  rw [hlhs, krigeP_last_row, krigeK_last] at hrow
  have htk : (w.take n).length = n := by
    rw [List.length_take]
    omega
  have hdrop : w.drop n = [w.getD n 0] := by
    have hwn : n < w.length := by omega
    have h1 : w.drop n = w[n] :: w.drop (n+1) :=
      List.drop_eq_getElem_cons hwn
    have h2 : w.drop (n+1) = [] := List.drop_eq_nil_of_le (by omega)
    rw [h1, h2, List.getD_eq_getElem _ _ (by omega)]
  have hw2 : w.take n ++ w.drop n = w := List.take_append_drop n w
  rw [← hw2] at hrow
  have hz : dotQ (List.replicate n (1:ℚ) ++ [1/1000000]) (w.take n ++ w.drop n)
      = dotQ (List.replicate n 1) (w.take n) + dotQ [1/1000000] (w.drop n) := by
    simp only [dotQ]
    rw [List.zipWith_append _ _ _ _ _ (by simp [htk]), List.sum_append]
  rw [hz] at hrow
  have hones : dotQ (List.replicate n (1:ℚ)) (w.take n) = (w.take n).sum := by
    nth_rewrite 1 [← htk]
    exact dotQ_replicate_one (w.take n)
  have heps : dotQ [(1:ℚ)/1000000] (w.drop n) = (1/1000000) * w.getD n 0 := by
    rw [hdrop]
    simp [dotQ]
  rw [hones, heps] at hrow
  linarith

unseal Rat.add Rat.mul Rat.sub Rat.inv in
/-- Claim C2, evaluated at the failing input: with two neighbors in the
search radius the code stores vs[idx][0], the value of the first point of
the radius query result (insertion order), which here is the value 1 of the
point at distance 50 — not the value 2 of the nearest point at distance 10
claimed by the spec and by the code comments (fallback: nearest neighbor).
The square root parameter is irrelevant: the fallback branch never
evaluates it. -/
theorem krige_fallback_first_not_nearest :
    (krige_blocks (fun _ => 0) exCompsC2 exBlocksC2).map (fun b => b.value) = [some 1]
    ∧ specNearestValue (exCompsC2.filterMap (fun comp => comp.value.map
        (fun v => (comp.x, comp.y, comp.z, v)))) (0, 0, 0) = some 2 := by
  constructor <;> decide

unseal Rat.add Rat.mul Rat.sub Rat.inv in
/-- Counterexample to claim C9 as stated: at this concrete input the block
records after the call differ from the block records passed in (the value
field of the block was overwritten in place), so block estimation does not
leave the input block records unmodified. -/
theorem krige_mutates_input_blocks :
    (krigeEffect (fun _ => 0)
        { composites := exCompsC2, blocks := exBlocksC2 }).blocks
      ≠ ({ composites := exCompsC2, blocks := exBlocksC2 } : EngineState).blocks := by
  decide

/-- Amended claim C9: krige_blocks is deterministic and leaves the input
composite records unmodified, and it preserves the number of blocks and
every block field except value; but it writes each estimate into the value
field of the block records it received (returning the same, in-place
updated, collection rather than leaving the input blocks unmodified). -/
theorem krige_blocks_frame (sqrt : ℚ → ℚ) (s : EngineState) :
    (krigeEffect sqrt s).composites = s.composites
    ∧ (krigeEffect sqrt s).blocks.length = s.blocks.length
    ∧ ∀ i : ℕ,
        ((krigeEffect sqrt s).blocks.getD i defaultBlock).x
            = (s.blocks.getD i defaultBlock).x
        ∧ ((krigeEffect sqrt s).blocks.getD i defaultBlock).y
            = (s.blocks.getD i defaultBlock).y
        ∧ ((krigeEffect sqrt s).blocks.getD i defaultBlock).z
            = (s.blocks.getD i defaultBlock).z
        ∧ ((krigeEffect sqrt s).blocks.getD i defaultBlock).size_x
            = (s.blocks.getD i defaultBlock).size_x
        ∧ ((krigeEffect sqrt s).blocks.getD i defaultBlock).size_y
            = (s.blocks.getD i defaultBlock).size_y
        ∧ ((krigeEffect sqrt s).blocks.getD i defaultBlock).size_z
            = (s.blocks.getD i defaultBlock).size_z := by
  have key : ∀ (f : Block → Option ℚ) (bl : List Block) (i : ℕ),
      ((bl.map (fun b : Block => { b with value := f b })).getD i defaultBlock).x
          = (bl.getD i defaultBlock).x
      ∧ ((bl.map (fun b : Block => { b with value := f b })).getD i defaultBlock).y
          = (bl.getD i defaultBlock).y
      ∧ ((bl.map (fun b : Block => { b with value := f b })).getD i defaultBlock).z
          = (bl.getD i defaultBlock).z
      ∧ ((bl.map (fun b : Block => { b with value := f b })).getD i defaultBlock).size_x
          = (bl.getD i defaultBlock).size_x
      ∧ ((bl.map (fun b : Block => { b with value := f b })).getD i defaultBlock).size_y
          = (bl.getD i defaultBlock).size_y
      ∧ ((bl.map (fun b : Block => { b with value := f b })).getD i defaultBlock).size_z
          = (bl.getD i defaultBlock).size_z := by
    intro f bl
    induction bl with
    | nil => intro i; simp
    | cons b rest ih =>
        intro i
        match i with
        | 0 => simp
        | Nat.succ j => simpa using ih j
  refine ⟨rfl, ?_, ?_⟩
  · rw [krigeEffect]
    rw [krige_blocks]
    by_cases hp : (s.composites.filterMap (fun comp => comp.value.map
        (fun v => (comp.x, comp.y, comp.z, v)))).length < 1
    · rw [if_pos hp]; simp
    · rw [if_neg hp]; simp
  · intro i
    rw [krigeEffect, krige_blocks]
    by_cases hp : (s.composites.filterMap (fun comp => comp.value.map
        (fun v => (comp.x, comp.y, comp.z, v)))).length < 1
    · rw [if_pos hp]
      exact key _ s.blocks i
    · rw [if_neg hp]
      exact key _ s.blocks i

theorem axisCenters_pos (size mx pos : ℚ) (hs : 0 < size) (hp : pos < mx) :
    axisCenters size mx pos = (pos + size / 2) :: axisCenters size mx (pos + size) := by
  rw [axisCenters, dif_pos ⟨hs, hp⟩]

theorem axisCenters_neg (size mx pos : ℚ) (h : ¬ (0 < size ∧ pos < mx)) :
    axisCenters size mx pos = [] := by
  rw [axisCenters, dif_neg h]

theorem axisCenters_eq_range (size mx : ℚ) (hs : 0 < size) :
    ∀ (n : ℕ) (mn : ℚ), (⌈(mx - mn) / size⌉).toNat = n →
      axisCenters size mx mn
        = (List.range n).map (fun i : ℕ => mn + (i : ℚ) * size + size / 2) := by
  intro n
  induction n with
  | zero =>
      intro mn hn
      have hp : ¬ mn < mx := by
        intro hp
        have h2 : 0 < ⌈(mx - mn) / size⌉ := Int.ceil_pos.2 (div_pos (by linarith) hs)
        omega
      rw [axisCenters_neg _ _ _ (by tauto)]
      simp
  | succ n ih =>
      intro mn hn
      by_cases hp : mn < mx
      · have hnext : (⌈(mx - (mn + size)) / size⌉).toNat = n := by
          have := ceil_step size mx mn hs hp
          omega
        rw [axisCenters_pos _ _ _ hs hp, ih (mn + size) hnext,
          List.range_succ_eq_map, List.map_cons, List.map_map]
        congr 1
        · push_cast
          ring
        · apply List.map_congr_left
          intro i _
          simp only [Function.comp]
          push_cast
          ring
      · exfalso
        have h3 : (mx - mn) / size ≤ 0 :=
          div_nonpos_iff.mpr (Or.inr ⟨by linarith, le_of_lt hs⟩)
        have h2 : ⌈(mx - mn) / size⌉ ≤ 0 := Int.ceil_le.mpr (by push_cast; linarith)
        omega

/-- Claim C6: each axis is tiled independently from the padded minimum,
stepping by the block size while strictly below the padded maximum, with one
block centered at position + size/2 per step; hence the centers are
mn + i*size + size/2 for i < ceil((mx-mn)/size) and the per-axis count is
ceil((mx-mn)/size). -/
theorem grid_axis_tiling (size mn mx : ℚ) (hs : 0 < size) :
    axisCenters size mx mn
      = (List.range ((⌈(mx - mn) / size⌉).toNat)).map
          (fun i : ℕ => mn + (i : ℚ) * size + size / 2)
    ∧ (axisCenters size mx mn).length = (⌈(mx - mn) / size⌉).toNat := by
  have h := axisCenters_eq_range size mx hs ((⌈(mx - mn) / size⌉).toNat) mn rfl
  exact ⟨h, by rw [h]; simp⟩

/-- Witness for C6 at the concrete instance of the spec: padded axis [0, 97)
with block size 20 has ceil(97/20) = 5 blocks, centered at 10, 30, 50, 70
and 90. -/
theorem grid_axis_tiling_witness :
    ((0:ℚ) < 20 ∧ (axisCenters 20 97 0).length = (⌈((97:ℚ) - 0) / 20⌉).toNat)
    ∧ (axisCenters 20 97 0).length = 5
    ∧ axisCenters 20 97 0 = [10, 30, 50, 70, 90] := by
  have hceil : ⌈((97:ℚ) - 0) / 20⌉ = 5 := by
    rw [Int.ceil_eq_iff]
    norm_num
  have h := grid_axis_tiling 20 0 97 (by norm_num)
  refine ⟨⟨by norm_num, h.2⟩, ?_, ?_⟩
  · rw [h.2, hceil]
    rfl
  · rw [h.1, hceil]
    norm_num [show Int.toNat 5 = 5 from rfl, List.range_succ]

theorem foldl_min_mem : ∀ (l : List ℚ) (a : ℚ), l.foldl min a ∈ a :: l := by
  intro l
  induction l with
  | nil => intro a; simp
  | cons c t ih =>
      intro a
      rw [List.foldl_cons]
      rcases List.mem_cons.mp (ih (min a c)) with h1 | h2
      · rcases min_choice a c with h3 | h3
        · rw [h1, h3]
          exact List.mem_cons_self _ _
        · rw [h1, h3]
          exact List.mem_cons_of_mem _ (List.mem_cons_self _ _)
      · exact List.mem_cons_of_mem _ (List.mem_cons_of_mem _ h2)

theorem foldl_min_le : ∀ (l : List ℚ) (a : ℚ), ∀ b ∈ a :: l, l.foldl min a ≤ b := by
  intro l
  induction l with
  | nil =>
      intro a b hb
      simp at hb
      simp [hb]
  | cons c t ih =>
      intro a b hb
      rw [List.foldl_cons]
      have hbase := ih (min a c) (min a c) (List.mem_cons_self _ _)
      rcases List.mem_cons.mp hb with h1 | h2
      · rw [h1]
        exact le_trans hbase (min_le_left a c)
      · rcases List.mem_cons.mp h2 with h3 | h4
        · rw [h3]
          exact le_trans hbase (min_le_right a c)
        · exact ih (min a c) b (List.mem_cons_of_mem _ h4)

theorem foldl_max_mem : ∀ (l : List ℚ) (a : ℚ), l.foldl max a ∈ a :: l := by
  intro l
  induction l with
  | nil => intro a; simp
  | cons c t ih =>
      intro a
      rw [List.foldl_cons]
      rcases List.mem_cons.mp (ih (max a c)) with h1 | h2
      · rcases max_choice a c with h3 | h3
        · rw [h1, h3]
          exact List.mem_cons_self _ _
        · rw [h1, h3]
          exact List.mem_cons_of_mem _ (List.mem_cons_self _ _)
      · exact List.mem_cons_of_mem _ (List.mem_cons_of_mem _ h2)

theorem foldl_max_le : ∀ (l : List ℚ) (a : ℚ), ∀ b ∈ a :: l, b ≤ l.foldl max a := by
  intro l
  induction l with
  | nil =>
      intro a b hb
      simp at hb
      simp [hb]
  | cons c t ih =>
      intro a b hb
      rw [List.foldl_cons]
      have hbase := ih (max a c) (max a c) (List.mem_cons_self _ _)
      rcases List.mem_cons.mp hb with h1 | h2
      · rw [h1]
        exact le_trans (le_max_left a c) hbase
      · rcases List.mem_cons.mp h2 with h3 | h4
        · rw [h3]
          exact le_trans (le_max_right a c) hbase
        · exact ih (max a c) b (List.mem_cons_of_mem _ h4)

theorem coords_length_eq (drillholes : List Hole) (surface_points : List SurfPoint) :
    (allXs drillholes surface_points).length = (allYs drillholes surface_points).length
    ∧ (allXs drillholes surface_points).length = (allZs drillholes surface_points).length := by
  have hfun : ∀ (f : TrajPoint → ℚ),
      (List.length ∘ fun dh : Hole => List.map f dh.trajectory)
        = fun dh : Hole => dh.trajectory.length := by
    intro f
    funext dh
    simp
  simp only [allXs, allYs, allZs, List.length_append, List.length_map, List.length_flatMap]
  rw [hfun (fun p => p.x), hfun (fun p => p.y), hfun (fun p => p.z)]
  exact ⟨rfl, rfl⟩

/-- Claim C7: auto_detect_bbox fails exactly when there are no coordinates
at all (no trajectory points and no surface points); otherwise it returns on
each axis the minimum over both coordinate sources with the padding
subtracted and the maximum with the padding added (so each axis grows by
2 times the padding in total). -/
theorem auto_detect_bbox_spec (drillholes : List Hole)
    (surface_points : List SurfPoint) (padding : ℚ) :
    ((∃ e, auto_detect_bbox drillholes surface_points padding = Except.error e)
      ↔ ((∀ dh ∈ drillholes, dh.trajectory = []) ∧ surface_points = []))
    ∧ ∀ bb, auto_detect_bbox drillholes surface_points padding = Except.ok bb →
        (bb.minX + padding ∈ allXs drillholes surface_points
          ∧ (∀ a ∈ allXs drillholes surface_points, bb.minX + padding ≤ a)
          ∧ bb.maxX - padding ∈ allXs drillholes surface_points
          ∧ (∀ a ∈ allXs drillholes surface_points, a ≤ bb.maxX - padding))
        ∧ (bb.minY + padding ∈ allYs drillholes surface_points
          ∧ (∀ a ∈ allYs drillholes surface_points, bb.minY + padding ≤ a)
          ∧ bb.maxY - padding ∈ allYs drillholes surface_points
          ∧ (∀ a ∈ allYs drillholes surface_points, a ≤ bb.maxY - padding))
        ∧ (bb.minZ + padding ∈ allZs drillholes surface_points
          ∧ (∀ a ∈ allZs drillholes surface_points, bb.minZ + padding ≤ a)
          ∧ bb.maxZ - padding ∈ allZs drillholes surface_points
          ∧ (∀ a ∈ allZs drillholes surface_points, a ≤ bb.maxZ - padding)) := by
  have hempty : allXs drillholes surface_points = []
      ↔ ((∀ dh ∈ drillholes, dh.trajectory = []) ∧ surface_points = []) := by
    rw [allXs, List.append_eq_nil, List.flatMap_eq_nil_iff]
    constructor
    · rintro ⟨h1, h2⟩
      exact ⟨fun dh hdh => List.map_eq_nil_iff.mp (h1 dh hdh),
        List.map_eq_nil_iff.mp h2⟩
    · rintro ⟨h1, h2⟩
      exact ⟨fun dh hdh => by rw [h1 dh hdh, List.map_nil], by rw [h2, List.map_nil]⟩
  constructor
  · constructor
    · rintro ⟨e, he⟩
      simp only [auto_detect_bbox] at he
      by_cases h0 : (allXs drillholes surface_points).length = 0
      · exact hempty.mp (List.length_eq_zero.mp h0)
      · rw [if_neg h0] at he
        exact absurd he (by simp)
    · rintro ⟨hdh, hsp⟩
      refine ⟨"No existen puntos para calcular bounding box.", ?_⟩
      simp only [auto_detect_bbox]
      rw [if_pos (List.length_eq_zero.mpr (hempty.mpr ⟨hdh, hsp⟩))]
  · intro bb hbb
    simp only [auto_detect_bbox] at hbb
    by_cases h0 : (allXs drillholes surface_points).length = 0
    · rw [if_pos h0] at hbb
      exact absurd hbb (by simp)
    · rw [if_neg h0] at hbb
      injection hbb with hbb2
      have hylen := (coords_length_eq drillholes surface_points).1
      have hzlen := (coords_length_eq drillholes surface_points).2
      have hxne : allXs drillholes surface_points ≠ [] := by
        intro hx; exact h0 (by rw [hx]; rfl)
      have hyne : allYs drillholes surface_points ≠ [] := by
        intro hy
        rw [hy] at hylen
        exact h0 (by simpa using hylen)
      have hzne : allZs drillholes surface_points ≠ [] := by
        intro hz
        rw [hz] at hzlen
        exact h0 (by simpa using hzlen)
      have hkey : ∀ l : List ℚ, l ≠ [] → pyMin l ∈ l ∧ (∀ a ∈ l, pyMin l ≤ a)
          ∧ pyMax l ∈ l ∧ (∀ a ∈ l, a ≤ pyMax l) := by
        intro l hl
        match l with
        | [] => exact absurd rfl hl
        | a :: t =>
            exact ⟨foldl_min_mem t a, fun b hb => foldl_min_le t a b hb,
              foldl_max_mem t a, fun b hb => foldl_max_le t a b hb⟩
      have hx := hkey _ hxne
      have hy := hkey _ hyne
      have hz := hkey _ hzne
      subst hbb2
      refine ⟨⟨?_, ?_, ?_, ?_⟩, ⟨?_, ?_, ?_, ?_⟩, ⟨?_, ?_, ?_, ?_⟩⟩ <;>
        simp only [sub_add_cancel, add_sub_cancel_right]
      · exact hx.1
      · intro a ha; exact hx.2.1 a ha
      · exact hx.2.2.1
      · intro a ha; exact hx.2.2.2 a ha
      · exact hy.1
      · intro a ha; exact hy.2.1 a ha
      · exact hy.2.2.1
      · intro a ha; exact hy.2.2.2 a ha
      · exact hz.1
      · intro a ha; exact hz.2.1 a ha
      · exact hz.2.2.1
      · intro a ha; exact hz.2.2.2 a ha

unseal Rat.add Rat.mul Rat.sub Rat.inv in
/-- Witness for C7 at a concrete input: one drillhole with two trajectory
points and one surface point, padding 20; the ok branch of the theorem is
exercised on the concretely computed box. -/
theorem auto_detect_bbox_spec_witness :
    auto_detect_bbox exHolesC7 exSurfC7 20 = Except.ok exBBoxC7
    ∧ exBBoxC7.minX + 20 ∈ allXs exHolesC7 exSurfC7
    ∧ exBBoxC7.maxZ - 20 ∈ allZs exHolesC7 exSurfC7 := by
  have hok : auto_detect_bbox exHolesC7 exSurfC7 20 = Except.ok exBBoxC7 := by rfl
  have h := (auto_detect_bbox_spec exHolesC7 exSurfC7 20).2 exBBoxC7 hok
  exact ⟨hok, h.1.1, h.2.2.2.2.1⟩

theorem extractLoop_cons_err {e : DxfEntity} {rest : List DxfEntity}
    {msg : String} (h : entityPoints e = Except.error msg) :
    extractLoop (e :: rest) = Except.error msg := by
  simp [extractLoop, h]

theorem extractLoop_cons_ok_err {e : DxfEntity} {rest : List DxfEntity}
    {ps : List SurfPoint} {msg : String} (h1 : entityPoints e = Except.ok ps)
    (h2 : extractLoop rest = Except.error msg) :
    extractLoop (e :: rest) = Except.error msg := by
  simp [extractLoop, h1, h2]

theorem extractLoop_cons_ok_ok {e : DxfEntity} {rest : List DxfEntity}
    {ps qs : List SurfPoint} (h1 : entityPoints e = Except.ok ps)
    (h2 : extractLoop rest = Except.ok qs) :
    extractLoop (e :: rest) = Except.ok (ps ++ qs) := by
  simp [extractLoop, h1, h2]

theorem extractLoop_error_iff (es : List DxfEntity) :
    (∃ msg, extractLoop es = Except.error msg)
      ↔ ∃ e ∈ es, ∃ msg, entityPoints e = Except.error msg := by
  induction es with
  | nil => simp [extractLoop]
  | cons e rest ih =>
      constructor
      · rintro ⟨msg, hmsg⟩
        cases he : entityPoints e with
        | error m => exact ⟨e, by simp, m, he⟩
        | ok ps =>
            cases hr : extractLoop rest with
            | error m2 =>
                obtain ⟨e2, he2, m3, hm3⟩ := ih.mp ⟨m2, hr⟩
                exact ⟨e2, by simp [he2], m3, hm3⟩
            | ok qs =>
                rw [extractLoop_cons_ok_ok he hr] at hmsg
                simp at hmsg
      · rintro ⟨e2, he2, msg, hmsg⟩
        rcases List.mem_cons.mp he2 with h1 | h2
        · subst h1
          exact ⟨msg, extractLoop_cons_err hmsg⟩
        · cases he : entityPoints e with
          | error m => exact ⟨m, extractLoop_cons_err he⟩
          | ok ps =>
              obtain ⟨m2, hm2⟩ := ih.mpr ⟨e2, h2, msg, hmsg⟩
              exact ⟨m2, extractLoop_cons_ok_err he hm2⟩

theorem extractLoop_ok_sublist :
    ∀ (es : List DxfEntity) (ps : List SurfPoint), extractLoop es = Except.ok ps →
      ∀ e ∈ es, ∃ qs, entityPoints e = Except.ok qs ∧ qs.Sublist ps := by
  intro es
  induction es with
  | nil => intro ps h e he; simp at he
  | cons a rest ih =>
      intro ps h e he
      cases ha : entityPoints a with
      | error m =>
          rw [extractLoop_cons_err ha] at h
          simp at h
      | ok ps1 =>
          cases hr : extractLoop rest with
          | error m2 =>
              rw [extractLoop_cons_ok_err ha hr] at h
              simp at h
          | ok ps2 =>
              rw [extractLoop_cons_ok_ok ha hr] at h
              have hps : ps1 ++ ps2 = ps := by
                injection h
              rcases List.mem_cons.mp he with h1 | h2
              · subst h1
                exact ⟨ps1, ha, hps ▸ List.sublist_append_left _ _⟩
              · obtain ⟨qs, hq, hsub⟩ := ih ps2 hr e h2
                exact ⟨qs, hq, hps ▸ hsub.trans (List.sublist_append_right _ _)⟩

theorem load_ok_groups (entities : List DxfEntity) (ps : List SurfPoint)
    (h : load_dxf_surface entities = Except.ok ps) :
    ∃ l1 l2 l3 l4 l5 l6,
      extractLoop (entities.filter isLWPOLYLINE) = Except.ok l1
      ∧ extractLoop (entities.filter isPOLYLINE) = Except.ok l2
      ∧ extractLoop (entities.filter is3DFACE) = Except.ok l3
      ∧ extractLoop (entities.filter isMESH) = Except.ok l4
      ∧ extractLoop (entities.filter isLINE) = Except.ok l5
      ∧ extractLoop (entities.filter isSPLINE) = Except.ok l6
      ∧ ps = l1 ++ l2 ++ l3 ++ l4 ++ l5 ++ l6 := by
  cases h1 : extractLoop (entities.filter isLWPOLYLINE) with
  | error m => simp [load_dxf_surface, h1] at h
  | ok l1 =>
  cases h2 : extractLoop (entities.filter isPOLYLINE) with
  | error m => simp [load_dxf_surface, h1, h2] at h
  | ok l2 =>
  cases h3 : extractLoop (entities.filter is3DFACE) with
  | error m => simp [load_dxf_surface, h1, h2, h3] at h
  | ok l3 =>
  cases h4 : extractLoop (entities.filter isMESH) with
  | error m => simp [load_dxf_surface, h1, h2, h3, h4] at h
  | ok l4 =>
  cases h5 : extractLoop (entities.filter isLINE) with
  | error m => simp [load_dxf_surface, h1, h2, h3, h4, h5] at h
  | ok l5 =>
  cases h6 : extractLoop (entities.filter isSPLINE) with
  | error m => simp [load_dxf_surface, h1, h2, h3, h4, h5, h6] at h
  | ok l6 =>
      refine ⟨l1, l2, l3, l4, l5, l6, rfl, rfl, rfl, rfl, rfl, rfl, ?_⟩
      simp only [load_dxf_surface, h1, h2, h3, h4, h5, h6] at h
      simp only [Except.ok.injEq] at h
      exact h.symm

/-- Counterexample to claim C8 as stated: a 3D polyline whose only vertex
is missing its location attribute makes the whole parse abort (the source
has no try/except around the POLYLINE loop), so the malformed entity is not
skipped individually, and the well-formed line entity beside it contributes
nothing — the parse returns no point collection at all. -/
theorem load_dxf_aborts_counterexample :
    load_dxf_surface [exBadPolyC8, exLineC8]
      = Except.error "DXFAttributeError: missing vertex location"
    ∧ entityPoints exLineC8
      = Except.ok [{ x := 1, y := 2, z := 3 }, { x := 4, y := 5, z := 6 }] := by
  exact ⟨rfl, rfl⟩

/-- Amended claim C8: only the 3DFACE loop is failure-tolerant — a missing
or malformed face vertex attribute is skipped individually, never raises,
and the face still contributes its present corner points.  In the other
five loops a malformed or attribute-missing entity raises an uncaught
exception: the parse aborts (returns an error) exactly when some entity
raises, and only when no entity raises does every entity contribute its
points to the output.  Moreover the MESH and LWPOLYLINE loops raise even on
well-formed entities with at least one vertex or point. -/
theorem load_dxf_abort_behavior :
    (∀ entities : List DxfEntity,
        (∃ msg, load_dxf_surface entities = Except.error msg)
          ↔ ∃ e ∈ entities, ∃ msg, entityPoints e = Except.error msg)
    ∧ (∀ (entities : List DxfEntity) (ps : List SurfPoint),
        load_dxf_surface entities = Except.ok ps →
        ∀ e ∈ entities, ∃ qs, entityPoints e = Except.ok qs ∧ qs.Sublist ps)
    ∧ (∀ v0 v1 v2 v3 : Option (ℚ × ℚ × ℚ),
        entityPoints (DxfEntity.face3d v0 v1 v2 v3)
          = Except.ok (([v0, v1, v2, v3].filterMap id).map
              (fun v => ({ x := v.1, y := v.2.1, z := v.2.2 } : SurfPoint))))
    ∧ (∀ (v : ℚ × ℚ × ℚ) (vs : List (ℚ × ℚ × ℚ)),
        ∃ msg, entityPoints (DxfEntity.mesh (v :: vs)) = Except.error msg)
    ∧ (∀ (elevation : Option ℚ) (p : ℚ × ℚ × ℚ × ℚ × ℚ)
          (pts : List (ℚ × ℚ × ℚ × ℚ × ℚ)),
        ∃ msg, entityPoints (DxfEntity.lwpolyline elevation (p :: pts))
          = Except.error msg) := by
  have hcontrib : ∀ (entities : List DxfEntity) (ps : List SurfPoint),
      load_dxf_surface entities = Except.ok ps →
      ∀ e ∈ entities, ∃ qs, entityPoints e = Except.ok qs ∧ qs.Sublist ps := by
    intro entities ps h e he
    obtain ⟨l1, l2, l3, l4, l5, l6, h1, h2, h3, h4, h5, h6, hps⟩ :=
      load_ok_groups entities ps h
    subst hps
    match e with
    | .lwpolyline a b =>
        have hm : DxfEntity.lwpolyline a b ∈ entities.filter isLWPOLYLINE :=
          List.mem_filter.mpr ⟨he, rfl⟩
        obtain ⟨qs, hq, hsub⟩ := extractLoop_ok_sublist _ _ h1 _ hm
        exact ⟨qs, hq, (((((hsub.trans (List.sublist_append_left _ _)).trans
          (List.sublist_append_left _ _)).trans
          (List.sublist_append_left _ _)).trans
          (List.sublist_append_left _ _)).trans
          (List.sublist_append_left _ _))⟩
    | .polyline a b =>
        have hm : DxfEntity.polyline a b ∈ entities.filter isPOLYLINE :=
          List.mem_filter.mpr ⟨he, rfl⟩
        obtain ⟨qs, hq, hsub⟩ := extractLoop_ok_sublist _ _ h2 _ hm
        exact ⟨qs, hq, (((((hsub.trans (List.sublist_append_right _ _)).trans
          (List.sublist_append_left _ _)).trans
          (List.sublist_append_left _ _)).trans
          (List.sublist_append_left _ _)).trans
          (List.sublist_append_left _ _))⟩
    | .face3d v0 v1 v2 v3 =>
        have hm : DxfEntity.face3d v0 v1 v2 v3 ∈ entities.filter is3DFACE :=
          List.mem_filter.mpr ⟨he, rfl⟩
        obtain ⟨qs, hq, hsub⟩ := extractLoop_ok_sublist _ _ h3 _ hm
        exact ⟨qs, hq, ((((hsub.trans (List.sublist_append_right _ _)).trans
          (List.sublist_append_left _ _)).trans
          (List.sublist_append_left _ _)).trans
          (List.sublist_append_left _ _))⟩
    | .mesh a =>
        have hm : DxfEntity.mesh a ∈ entities.filter isMESH :=
          List.mem_filter.mpr ⟨he, rfl⟩
        obtain ⟨qs, hq, hsub⟩ := extractLoop_ok_sublist _ _ h4 _ hm
        exact ⟨qs, hq, (((hsub.trans (List.sublist_append_right _ _)).trans
          (List.sublist_append_left _ _)).trans
          (List.sublist_append_left _ _))⟩
    | .line a b =>
        have hm : DxfEntity.line a b ∈ entities.filter isLINE :=
          List.mem_filter.mpr ⟨he, rfl⟩
        obtain ⟨qs, hq, hsub⟩ := extractLoop_ok_sublist _ _ h5 _ hm
        exact ⟨qs, hq, ((hsub.trans (List.sublist_append_right _ _)).trans
          (List.sublist_append_left _ _))⟩
    | .spline a =>
        have hm : DxfEntity.spline a ∈ entities.filter isSPLINE :=
          List.mem_filter.mpr ⟨he, rfl⟩
        obtain ⟨qs, hq, hsub⟩ := extractLoop_ok_sublist _ _ h6 _ hm
        exact ⟨qs, hq, hsub.trans (List.sublist_append_right _ _)⟩
  refine ⟨?_, hcontrib, fun v0 v1 v2 v3 => rfl,
    fun v vs => ⟨_, rfl⟩, fun elevation p pts => ⟨_, rfl⟩⟩
  intro entities
  constructor
  · rintro ⟨msg, hload⟩
    by_contra hno
    push_neg at hno
    have hg : ∀ p : DxfEntity → Bool,
        ∃ l, extractLoop (entities.filter p) = Except.ok l := by
      intro p
      cases hE : extractLoop (entities.filter p) with
      | ok l => exact ⟨l, rfl⟩
      | error m =>
          obtain ⟨e, he, m2, herr⟩ := (extractLoop_error_iff _).mp ⟨m, hE⟩
          exact absurd herr (hno e (List.mem_of_mem_filter he) m2)
    obtain ⟨l1, h1⟩ := hg isLWPOLYLINE
    obtain ⟨l2, h2⟩ := hg isPOLYLINE
    obtain ⟨l3, h3⟩ := hg is3DFACE
    obtain ⟨l4, h4⟩ := hg isMESH
    obtain ⟨l5, h5⟩ := hg isLINE
    obtain ⟨l6, h6⟩ := hg isSPLINE
    have hok : load_dxf_surface entities
        = Except.ok (l1 ++ l2 ++ l3 ++ l4 ++ l5 ++ l6) := by
      simp [load_dxf_surface, h1, h2, h3, h4, h5, h6]
    rw [hok] at hload
    simp at hload
  · rintro ⟨e, he, msg, herr⟩
    cases hl : load_dxf_surface entities with
    | error m => exact ⟨m, rfl⟩
    | ok ps =>
        obtain ⟨qs, hok, _⟩ := hcontrib entities ps hl e he
        rw [herr] at hok
        simp at hok

/-- Witness for the amended C8 at concrete inputs: the abort equivalence
applied to the collection holding the attribute-missing polyline, and the
contribution property applied to a successful parse of the line entity
alone. -/
theorem load_dxf_abort_behavior_witness :
    ((∃ msg, load_dxf_surface [exBadPolyC8, exLineC8] = Except.error msg)
      ∧ exBadPolyC8 ∈ [exBadPolyC8, exLineC8]
      ∧ (∃ msg, entityPoints exBadPolyC8 = Except.error msg))
    ∧ (load_dxf_surface [exLineC8]
        = Except.ok [{ x := 1, y := 2, z := 3 }, { x := 4, y := 5, z := 6 }]
      ∧ ∃ qs, entityPoints exLineC8 = Except.ok qs
          ∧ qs.Sublist [({ x := 1, y := 2, z := 3 } : SurfPoint),
              { x := 4, y := 5, z := 6 }]) := by
  have hmem : exBadPolyC8 ∈ [exBadPolyC8, exLineC8] := by decide
  have herr : ∃ msg, entityPoints exBadPolyC8 = Except.error msg := ⟨_, rfl⟩
  have hok : load_dxf_surface [exLineC8]
      = Except.ok [{ x := 1, y := 2, z := 3 }, { x := 4, y := 5, z := 6 }] := rfl
  have hmem2 : exLineC8 ∈ [exLineC8] := by decide
  refine ⟨⟨(load_dxf_abort_behavior.1 [exBadPolyC8, exLineC8]).mpr
      ⟨exBadPolyC8, hmem, herr⟩, hmem, herr⟩,
    hok, load_dxf_abort_behavior.2.1 [exLineC8] _ hok exLineC8 hmem2⟩

end CoreLab
